import Mathlib

/-!
Verification development for the aircox station control plane.

The definitions below are a shallow embedding of the Python sources:
- `src/liquidsoap/utils.py` (Connector, BaseSource, Source, Master, Controller)
- `src/aircox/controllers.py` (Streamer, Source)

Python strings are embedded as `List Char` (`Str`), Python `None`/string
results as `PyRes`, socket transports as explicit schedules of attempt
outcomes, and the file system as an explicit log of written contents.
-/

/-- Python strings, embedded as lists of characters. -/
abbrev Str := List Char

/-- Python's `\s` character class (ASCII whitespace, as used by `re` on the
protocol's ASCII replies): space, tab, newline, carriage return, vertical
tab, form feed. -/
def isWs (c : Char) : Bool :=
  c == ' ' || c == '\t' || c == '\n' || c == '\r' || c == '\x0b' || c == '\x0c'

/-- Python `str.strip()`: remove leading and trailing whitespace. -/
def pyStrip (s : Str) : Str := (s.rdropWhile isWs).dropWhile isWs

/-- Python `str.split('\n')` (note: `''.split('\n') == ['']`, and the
separator splits on every occurrence, keeping empty pieces). -/
def splitNl : Str → List Str
  | [] => [[]]
  | c :: rest =>
    if c = '\n' then [] :: splitNl rest
    else (c :: (splitNl rest).headI) :: (splitNl rest).tail

/-- Python `'\n'.join(xs)` as written by `Source.write` / `Source.push`. -/
def joinNl (xs : List Str) : Str := List.intercalate ['\n'] xs

/-!
How `Connector.send` reads until the buffer matches `re.compile(r'(.*)\s+END\s*$')`
(`utils.py` line 57).  We embed that regular expression by a direct
characterization of its semantics on a buffer `s`:

* `search` succeeds iff, after discarding the trailing whitespace of `s`
  (consumed by `\s*$`, where `$` also tolerates one final newline), the buffer
  ends in the literal `END` immediately preceded by at least one whitespace
  character (consumed by `\s+`; `(.*)` always matches, possibly emptily).
  No earlier occurrence of `END` can be the one matched, because everything
  after the matched `END` must be whitespace.

* the code then runs `reg.sub(r'\1', data)` followed by `.strip()`.  The one
  match replaces the suffix `\s+ END \s*` of the buffer by the `(.*)` group,
  i.e. it removes the final `END` together with the whitespace around it; the
  subsequent `.strip()` makes the result independent of exactly how much of
  that whitespace the greedy `(.*)` kept.  The composite is therefore: drop
  the trailing whitespace, drop the 3 characters of `END`, and strip.
-/

/-- Embedding of `reg.search(data)` for `reg = re.compile(r'(.*)\s+END\s*$')`. -/
def endRegSearch (s : Str) : Bool :=
  match (s.rdropWhile isWs).reverse with
  | 'D' :: 'N' :: 'E' :: w :: _ => isWs w
  | _ => false

/-- Embedding of `reg.sub(r'\1', data).strip()` for the same pattern (only evaluated on
buffers accepted by `endRegSearch`). -/
def endRegStrip (s : Str) : Str := pyStrip ((s.rdropWhile isWs).rdrop 3)

/-- The `while not reg.search(data): data += self.__socket.recv(1024)` loop of
`Connector.send`: the condition is checked before each read; `none` models a
socket whose chunk supply runs out before the sentinel arrives (the real code
would block on `recv` forever). -/
def recvLoop : List Str → Str → Option Str
  | [], acc => if endRegSearch acc then some acc else none
  | c :: rest, acc => if endRegSearch acc then some acc else recvLoop rest (acc ++ c)

/-- One attempt of the transport underneath a `Connector`: whether `open()`'s
`connect` succeeds, and — given the command line actually written by
`sendall` — either the chunks `recv` will deliver (`Except.ok`) or an I/O
failure raised after accumulating some partial buffer (`Except.error`). -/
structure Attempt where
  openOk : Bool
  io : Str → Except Str (List Str)

/-- A Python value as returned by `Connector.send`: `None` (fall-through when
the retry budget is exhausted), a string, or — with `parse=True` — the dict
built by `Connector.parse`. -/
inductive PyRes where
  | none
  | str (s : Str)
  | dict (d : List (Str × Str))
deriving DecidableEq

/-- Python truthiness of a `send` result (`''`, `{}` and `None` are falsy). -/
def pyFalsy : PyRes → Bool
  | .none => true
  | .str s => s.isEmpty
  | .dict d => d.isEmpty

/-- Embedding of `re.search(r'(?P<key>[^=]+)="?(?P<value>([^"]|\\")+)"?', line)` tried at
the start of `l`.  Derived semantics of the pattern at a fixed position:
`[^=]+` greedily takes the (nonempty) run of non-`'='` characters, which must
be followed by a literal `'='`; `"?` takes one double quote if present; the
value group then takes a nonempty run of non-quote characters (the `\\"`
alternative is unreachable: a backslash is itself matched by `[^"]`, and the
pattern ends with the optional `"?`, so no backtracking ever reconsiders it). -/
def tryMatch (l : Str) : Option (Str × Str) :=
  match l.span (fun c => c != '=') with
  | ([], _) => none
  | (_, []) => none
  | (key, _ :: afterEq) =>
    let afterQ := match afterEq with
      | '"' :: t => t
      | t => t
    match afterQ.span (fun c => c != '"') with
    | ([], _) => none
    | (value, _) => some (key, value)

/-- Embedding of `re.search` over the whole line: leftmost position at which the pattern
matches. -/
def lineSearch : Str → Option (Str × Str)
  | [] => none
  | c :: rest =>
    match tryMatch (c :: rest) with
    | some kv => some kv
    | none => lineSearch rest

/-- Python `data[key] = value` on a dict kept as an insertion-ordered
association list: an existing key keeps its position and gets the new value,
a new key is appended. -/
def dictSet (d : List (Str × Str)) (k v : Str) : List (Str × Str) :=
  if d.any (fun p => p.1 == k) then d.map (fun p => if p.1 == k then (k, v) else p)
  else d ++ [(k, v)]

/-- Python `dict.get`: the value at a key, if present. -/
def dictGet (d : List (Str × Str)) (k : Str) : Option Str :=
  (d.find? (fun p => p.1 == k)).map (·.2)

/-- The body of the `for line in string:` loop of `Connector.parse`
(`utils.py` lines 80–85): run the key/value regex on the line; on a match
assign `data[key] = value`, otherwise `continue`. -/
def parseLineStep (d : List (Str × Str)) (line : Str) : List (Str × Str) :=
  match lineSearch line with
  | some (k, v) => dictSet d k v
  | none => d

/-- Embedding of `Connector.parse` (`utils.py` lines 77–86): split on newlines, run the
key/value regex on each line, skip lines without a match. -/
def connParse (s : Str) : List (Str × Str) :=
  (splitNl s).foldl parseLineStep []

/-- Result of an embedded `Connector.send`: the returned value, the log of
command lines actually written to the socket, and the unconsumed rest of the
transport schedule. -/
structure SendOut where
  res : PyRes
  sent : List Str
  rest : List Attempt

/-- Embedding of `Connector.send(*data, try_count=1, parse=False)` (`utils.py` lines
51–75), over an explicit transport schedule.  The connector starts (and,
after every caught exception, returns to) the unconnected state, so each
iteration consults the next `Attempt`.

Embedded faithfully, including the slip on line 75: the recursive retry is
`self.send(data, try_count - 1)`, where `try_count` is keyword-only — so
`try_count - 1` is folded into the *command data* of the retry, `try_count`
silently resets to its default `1`, and the `parse` flag is dropped; `data`
at that point is the partial receive buffer, not the original command.

`none` models non-termination: either the fuel for the (unbounded) retry
recursion runs out, or the transport schedule ends mid-call, or `recv`
blocks forever. -/
def connSend : Nat → List Attempt → List Str → Int → Bool → List Str → Option SendOut
  | 0, _, _, _, _, _ => none
  | _ + 1, [], _, _, _, _ => none
  | fuel + 1, a :: rest, args, tryCount, parse, sent =>
    if !a.openOk then some ⟨.str [], sent, rest⟩
    else
      let cmd := (args.foldl (· ++ ·) []) ++ ['\n']
      match a.io cmd with
      | .ok chunks =>
        match recvLoop chunks [] with
        | some buf =>
          if buf.isEmpty then some ⟨.str [], sent ++ [cmd], rest⟩
          else
            let body := endRegStrip buf
            some ⟨if parse then .dict (connParse body) else .str body, sent ++ [cmd], rest⟩
        | none => none
      | .error part =>
        if tryCount > 0 then
          connSend fuel rest [part, (toString (tryCount - 1)).toList] 1 false (sent ++ [cmd])
        else some ⟨.none, sent ++ [cmd], rest⟩

/-!
Embedding of `BaseSource.update` and the metadata RPC (`utils.py` lines 96–137, 234–244)
-/

/-- Embedding of `BaseSource.update(metadata)` with an explicit metadata dict
(`utils.py` lines 121–137).  `hasProgram` stands for the Python guard
`hasattr(self, 'program') and self.program`: it is false on `Master`
(no `program` attribute at all) and on the dealer (`program is None`),
true exactly on stream sources.  Returns the Python return value
(`-1` or `None`) together with the new value of `self.metadata`. -/
def baseUpdate (hasProgram : Bool) (id : Str) (cached : Option (List (Str × Str)))
    (metadata : List (Str × Str)) : Option Int × Option (List (Str × Str)) :=
  let source := (dictGet metadata ("source".toList)).getD []
  if hasProgram && !(id.isPrefixOf source) then (some (-1), cached)
  else (none, some metadata)

/-- Outcome of an `update()` call that goes through the RPC: either a normal
return (Python return value plus the resulting `self.metadata`), or an
`AttributeError` (a truthy non-dict reply — possible because the retry path of
`send` drops the `parse` flag — has no `.get`). -/
inductive UpdRes where
  | ret (r : Option Int) (metadata : Option (List (Str × Str)))
  | attrErr
deriving DecidableEq

/-- Embedding of `update()` with no metadata argument on a `Source`/dealer
(`utils.py` lines 128–130): `r = self._send(self.id, '.get', parse=True)`,
then `self.update(metadata = r or {})`. -/
def sourceUpdateNoMeta (fuel : Nat) (ts : List Attempt) (hasProgram : Bool) (id : Str)
    (cached : Option (List (Str × Str))) : Option UpdRes :=
  match connSend fuel ts [id, (".get".toList)] 1 true [] with
  | none => none
  | some o =>
    match (if pyFalsy o.res then PyRes.dict [] else o.res) with
    | .dict d =>
      match baseUpdate hasProgram id cached d with
      | (r, m) => some (.ret r m)
    | _ => some .attrErr

/-- Embedding of `Master.update()` with no metadata argument (`utils.py` lines 238–244):
`r = self._send('request.on_air')`, then
`r = self._send('request.metadata ', r, parse=True)`, then
`self.update(metadata = r or {})`.  `Master` has no `program` attribute. -/
def masterUpdateNoMeta (fuel : Nat) (ts : List Attempt) (id : Str)
    (cached : Option (List (Str × Str))) : Option UpdRes :=
  match connSend fuel ts [("request.on_air".toList)] 1 false [] with
  | none => none
  | some o1 =>
    match o1.res with
    | .str r1 =>
      match connSend fuel o1.rest [("request.metadata ".toList), r1] 1 true [] with
      | none => none
      | some o2 =>
        match (if pyFalsy o2.res then PyRes.dict [] else o2.res) with
        | .dict d =>
          match baseUpdate false id cached d with
          | (r, m) => some (.ret r m)
        | _ => some .attrErr
    | _ => some .attrErr

/-!
The playlist setter and its backing file (`src/aircox/controllers.py`)
-/

/-- Python `sorted(value)` on a list of strings: stable sort by the
lexicographic (code-point) order, embedded with `List.insertionSort`
over the lexicographic order on `List Char`. -/
def sortPaths (v : List Str) : List Str := List.insertionSort (· ≤ ·) v

/-- The observable state of a `Source` (`controllers.py`) for the playlist
claims: the private `__playlist`, and the log of contents successively
written to the backing `.m3u` file by `push()` (each entry is one full
overwrite of the file). -/
structure PySource where
  playlist : List Str
  writes : List Str
deriving DecidableEq

/-- The `playlist` setter (`controllers.py` lines 284–289): sort, and only if
the sorted value differs from the current playlist, store it and `push()`
(which writes `'\n'.join(playlist)` to the file). -/
def playlistSet (st : PySource) (value : List Str) : PySource :=
  let v := sortPaths value
  if v ≠ st.playlist then { playlist := v, writes := st.writes ++ [joinNl v] } else st

/-- Embedding of `Source.from_file` (`controllers.py` lines 313–325) applied to a file
holding `content`: `self.__playlist = content.split('\n') if content else []`. -/
def fromFileParse (content : Str) : List Str :=
  if content.isEmpty then [] else splitNl content

/-!
Embedding of `Controller.__init__` (`utils.py` lines 280–307)
-/

/-- Modelled from the spec: a program of the scheduling database
(`aircox.programs.models.Program` is not part of the sources under
verification).  Its identifier is taken as an opaque string (the spec's
end-to-end scenario uses the name `jazz`); `hasStream` stands for
`program.stream_set.count()` being nonzero and `active` for the
`active = True` filter. -/
structure PyProgram where
  progId : Str
  hasStream : Bool
  active : Bool

/-- A Python `TypeError` raised during construction. -/
inductive InitErr where
  | typeErr
deriving DecidableEq

/-- Embedding of `BaseSource.__init__(self, controller, id, name)` (`utils.py` line 102):
`id` and `name` are required positional parameters, so a call that does not
supply them raises `TypeError`. -/
def baseSourceInit (idArg : Option Str) (nameArg : Option Str) :
    Except InitErr (Str × Str) :=
  match idArg, nameArg with
  | some i, some n => .ok (i, n)
  | _, _ => .error .typeErr

/-- Embedding of `Master(self)` as called on `utils.py` line 298: `Master` overrides no
constructor, so the inherited `BaseSource.__init__` runs with neither `id`
nor `name` supplied. -/
def masterInit : Except InitErr (Str × Str) :=
  baseSourceInit none none

/-- The id computed by `Source.__init__` (`utils.py` lines 146–155):
`'{}_dealer'.format(controller.id)` for the dealer,
`'{}_stream_{}'.format(controller.id, program.id)` for a stream. -/
def sourceId (controllerId : Str) (program : Option PyProgram) (isDealer : Bool) : Str :=
  if isDealer then controllerId ++ ("_dealer".toList)
  else controllerId ++ ("_stream_".toList) ++ ((program.map (·.progId)).getD [])

/-- Embedding of `Controller.__init__` (`utils.py` lines 280–307), restricted to the id
bookkeeping the claims are about.  `slugify(station)` is modelled from the
spec as the station's already-slugged name.  The master source is built
first (`self.master = Master(self)`, line 298), then the dealer, then one
stream source per active program with a declared stream.  Returns the
master id/name pair, the dealer id and the stream ids. -/
def controllerInit (stationSlug : Str) (programs : List PyProgram) :
    Except InitErr (Str × Str × List Str) := do
  let cid := stationSlug
  let m ← masterInit
  let dealerId := sourceId cid none true
  let streamIds := (programs.filter (fun p => p.active && p.hasStream)).map
    (fun p => sourceId cid (some p) false)
  return (m.1, dealerId, streamIds)

/-!
Embedding of `Controller.write` configuration normalization (`utils.py` lines 355–361)

```
data = re.sub(r'\s*\\\n', r'#\\n#', data)
data = data.replace('\n', '')
data = re.sub(r'#\\n#', '\n', data)
```

The replacement template denotes the four literal characters `#`, `\`, `n`,
`#` (no newline), which survive `replace('\n', '')` and are turned back into
real newlines by the last substitution.
-/

/-- The four-character marker `#`, `\`, `n`, `#`. -/
def marker : Str := ['#', '\\', 'n', '#']

/-- Left-to-right scanning state of `re.sub(r'\s*\\\n', <marker>, s)`:
`pend` is the whitespace run read since the last emitted character.  A match
of the pattern can only start at the beginning of such a run (the greedy
`\s*` extends a match as far left as the run goes, and the scan is leftmost),
so on reaching `\\` followed by a newline the pending run is part of the
match and is replaced, together with the backslash and newline, by the
marker; any other character flushes the pending run unchanged. -/
def subContAux : Str → Str → Str
  | pend, [] => pend
  | _, '\\' :: '\n' :: r => marker ++ subContAux [] r
  | pend, '\\' :: rest => pend ++ '\\' :: subContAux [] rest
  | pend, c :: rest =>
    if isWs c then subContAux (pend ++ [c]) rest
    else pend ++ c :: subContAux [] rest

/-- Embedding of `re.sub(r'\s*\\\n', <marker>, s)`. -/
def subCont (s : Str) : Str := subContAux [] s

/-- Python `data.replace('\n', '')`. -/
def removeNl (s : Str) : Str := s.filter (fun c => c != '\n')

/-- Embedding of `re.sub(r'#\\n#', '\n', s)`: replace each occurrence of the literal
marker by a newline, scanning left to right. -/
def subMarker : Str → Str
  | [] => []
  | '#' :: '\\' :: 'n' :: '#' :: r => '\n' :: subMarker r
  | c :: rest => c :: subMarker rest

/-- The full normalization performed by `Controller.write` on the rendered
configuration before writing it (`utils.py` lines 357–359). -/
def configNormalize (s : Str) : Str := subMarker (removeNl (subCont s))

/-- Modelled from the spec\'s words (claim C7), for comparison with
`configNormalize`: "collapsing trailing backslash-continued lines" — join a
line ending in backslash with the following line, deleting the whitespace,
backslash and newline of the continuation.  Same scan as `subContAux`, with
an empty replacement. -/
def specJoinContAux : Str → Str → Str
  | pend, [] => pend
  | _, '\\' :: '\n' :: r => specJoinContAux [] r
  | pend, '\\' :: rest => pend ++ '\\' :: specJoinContAux [] rest
  | pend, c :: rest =>
    if isWs c then specJoinContAux (pend ++ [c]) rest
    else pend ++ c :: specJoinContAux [] rest

/-- Modelled from the spec\'s words (claim C7): joining of backslash-continued
lines. -/
def specJoinContinuations (s : Str) : Str := specJoinContAux [] s

/-- Modelled from the spec\'s words (claim C7): "collapsing every run of 3 or
more blank lines to exactly one blank line" — a run of `n ≥ 4` consecutive
newlines (which renders as `n - 1 ≥ 3` blank lines) becomes two newlines
(one blank line); shorter runs are kept.  `n` counts the pending newline
run. -/
def specCollapseAux : Nat → Str → Str
  | n, [] => List.replicate (if n ≥ 4 then 2 else n) '\n'
  | n, '\n' :: rest => specCollapseAux (n + 1) rest
  | n, c :: rest =>
    List.replicate (if n ≥ 4 then 2 else n) '\n' ++ c :: specCollapseAux 0 rest

/-- Modelled from the spec\'s words (claim C7): blank-line collapsing. -/
def specCollapseBlanks (s : Str) : Str := specCollapseAux 0 s

/-- Modelled from the spec\'s words (claim C7): the normalization the claim
describes. -/
def specNormalizeC7 (s : Str) : Str := specCollapseBlanks (specJoinContinuations s)

/-!
Embedding of `Streamer.ready` and `Streamer.fetch` (`src/aircox/controllers.py`)
-/

/-- Embedding of `Streamer.ready` (`controllers.py` lines 193–197):
`return self._send('var.list') != ''`.  Any value other than the empty
string — including `None` or a dict — compares unequal to `''` in Python.
Also returns the log of command lines written to the socket. -/
def streamerReady (fuel : Nat) (ts : List Attempt) : Option (Bool × List Str) :=
  match connSend fuel ts [("var.list".toList)] 1 false [] with
  | none => none
  | some o => some (decide (o.res ≠ PyRes.str []), o.sent)

/-- The per-source state of a `Source` (`controllers.py`) that
`Streamer.fetch` reads and writes. -/
structure SrcSt where
  srcId : Str
  rid : Option Str
  currentSound : Option Str
  metadata : Option (List (Str × Str))
deriving DecidableEq

/-- Embedding of `Source.fetch` (`controllers.py` lines 342–353):
`data = self._send(self.id, '.get', parse=True)`; falsy or non-dict replies
leave the source untouched, otherwise `rid` and `current_sound` are set from
the dict. -/
def srcFetch (fuel : Nat) (ts : List Attempt) (s : SrcSt) :
    Option (SrcSt × List Attempt) :=
  match connSend fuel ts [s.srcId, (".get".toList)] 1 true [] with
  | none => none
  | some o =>
    match o.res with
    | .dict d =>
      if d.isEmpty then some (s, o.rest)
      else some ({ s with rid := dictGet d ("rid".toList),
                          currentSound := dictGet d ("initial_uri".toList) }, o.rest)
    | _ => some (s, o.rest)

/-- The `for source in sources: source.fetch()` loop at the top of
`Streamer.fetch`. -/
def fetchAll (fuel : Nat) : List Attempt → List SrcSt → Option (List SrcSt × List Attempt)
  | ts, [] => some ([], ts)
  | ts, s :: rest =>
    match srcFetch fuel ts s with
    | none => none
    | some (s', ts') =>
      match fetchAll fuel ts' rest with
      | none => none
      | some (rest', ts'') => some (s' :: rest', ts'')

/-- Outcome of `Streamer.fetch`: either a normal return carrying the new
source states, `current_sound` and `current_source`, or the
`AttributeError` raised by `self.current_source.metadata = data` when
`current_source` is `None`. -/
inductive FetchOut where
  | ok (sources : List SrcSt) (currentSound : Option Str) (currentSource : Option SrcSt)
  | attrErr
deriving DecidableEq

/-- Embedding of `Streamer.fetch` (`controllers.py` lines 77–104).  `rid` is
`self._send('request.on_air').split(' ')[0]` — embedded as the prefix up to
the first space; the subsequent `if ' ' in rid:` truncation can never fire
after `[0]` and is omitted.  When a source with a matching `rid` is found,
`current_source` becomes that source, else it keeps its old value; the final
`self.current_source.metadata = data` raises `AttributeError` when that value
is `None` (the Python-level aliasing of `current_source` into the sources
list is not re-modelled here: the claim is about the `None` dereference). -/
def streamerFetch (fuel : Nat) (ts : List Attempt) (sources : List SrcSt)
    (currentSource : Option SrcSt) (currentSound : Option Str) : Option FetchOut :=
  match fetchAll fuel ts sources with
  | none => none
  | some (srcs, ts1) =>
    match connSend fuel ts1 [("request.on_air".toList)] 1 false [] with
    | none => none
    | some o1 =>
      match o1.res with
      | .str s =>
        let rid := s.takeWhile (fun c => c != ' ')
        if rid.isEmpty then some (.ok srcs currentSound currentSource)
        else
          match connSend fuel o1.rest [("request.metadata ".toList), rid] 1 true [] with
          | none => none
          | some o2 =>
            match o2.res with
            | .dict d =>
              if d.isEmpty then some (.ok srcs currentSound currentSource)
              else
                match (srcs.find? (fun x => x.rid == some rid)).orElse
                    (fun _ => currentSource) with
                | some c =>
                    some (.ok srcs (dictGet d ("initial_uri".toList))
                      (some { c with metadata := some d }))
                | none => some .attrErr
            | .str s2 => if s2.isEmpty then some (.ok srcs currentSound currentSource)
                         else some .attrErr
            | .none => some (.ok srcs currentSound currentSource)
      | _ => some .attrErr

/-!
Statement scaffolding for the claims
-/

/-- The serialized terminator of a protocol reply whose last line is the
sentinel `END`: the newline ending the body's last line, the sentinel, and
the server's final newline. -/
def sentinelTail : Str := ['\n', 'E', 'N', 'D', '\n']

/-- A well-formed `key="value"` line, as produced by the engine's metadata
replies. -/
def renderPair (p : Str × Str) : Str := p.1 ++ '=' :: '"' :: (p.2 ++ ['"'])

/-- A reply line: either a well-formed `key="value"` pair or an inert line. -/
def renderLine : (Str × Str) ⊕ Str → Str
  | .inl p => renderPair p
  | .inr j => j

/-- The well-formed pairs of a list of reply lines, in order. -/
def pairsOf (lines : List ((Str × Str) ⊕ Str)) : List (Str × Str) :=
  lines.filterMap (fun l => match l with | .inl p => some p | .inr _ => none)

/-- Side conditions making a reply line unambiguous for the claims: a pair
line has a nonempty key without `'='` or newlines and a nonempty value
without quotes or newlines; an inert line contains no `'='` (hence no
possible match) and no newline. -/
def wfLineB : (Str × Str) ⊕ Str → Bool
  | .inl (k, v) => !k.isEmpty && !k.contains '=' && !k.contains '\n'
      && !v.isEmpty && !v.contains '"' && !v.contains '\n'
  | .inr j => !j.contains '=' && !j.contains '\n'

/-- Side conditions for the amended C7: a configuration segment between
backslash continuations that holds no backslash of its own, is nonempty, and
does not end in whitespace (so the continuation pattern's `\s*` can only
match emptily inside it). -/
def wfPartB (p : Str) : Bool :=
  !p.contains '\\' &&
    (match p.getLast? with
     | some c => !isWs c
     | none => false)

/-!
Supporting lemmas
-/

theorem endRegSearch_nil : endRegSearch [] = false := rfl

theorem endRegSearch_sentinel (body : Str) :
    endRegSearch (body ++ sentinelTail) = true := by
  have h1 : body ++ sentinelTail = (body ++ ['\n', 'E', 'N', 'D']) ++ ['\n'] := by
    simp [sentinelTail]
  have h2 : body ++ ['\n', 'E', 'N', 'D'] = (body ++ ['\n', 'E', 'N']) ++ ['D'] := by
    simp
  have hn : isWs '\n' = true := by decide
  have hD : ¬ isWs 'D' = true := by decide
  unfold endRegSearch
  rw [h1, List.rdropWhile_concat_pos isWs _ '\n' hn, h2,
    List.rdropWhile_concat_neg isWs _ 'D' hD]
  simp [List.reverse_append, hn]

theorem pyStrip_concat_nl (body : Str) : pyStrip (body ++ ['\n']) = pyStrip body := by
  have hn : isWs '\n' = true := by decide
  unfold pyStrip
  rw [List.rdropWhile_concat_pos isWs _ '\n' hn]

theorem endRegStrip_sentinel (body : Str) :
    endRegStrip (body ++ sentinelTail) = pyStrip body := by
  have h1 : body ++ sentinelTail = (body ++ ['\n', 'E', 'N', 'D']) ++ ['\n'] := by
    simp [sentinelTail]
  have h2 : body ++ ['\n', 'E', 'N', 'D'] = (body ++ ['\n', 'E', 'N']) ++ ['D'] := by
    simp
  have hn : isWs '\n' = true := by decide
  have hD : ¬ isWs 'D' = true := by decide
  unfold endRegStrip
  rw [h1, List.rdropWhile_concat_pos isWs _ '\n' hn, h2,
    List.rdropWhile_concat_neg isWs _ 'D' hD,
    List.rdrop_eq_reverse_drop_reverse]
  have h3 : ((body ++ ['\n', 'E', 'N']) ++ ['D']).reverse =
      'D' :: 'N' :: 'E' :: '\n' :: body.reverse := by
    simp [List.reverse_append]
  rw [h3]
  have h4 : List.drop 3 ('D' :: 'N' :: 'E' :: '\n' :: body.reverse) =
      '\n' :: body.reverse := rfl
  rw [h4]
  simp only [List.reverse_cons, List.reverse_reverse]
  exact pyStrip_concat_nl body

theorem recvLoop_single (chunk : Str) (h : endRegSearch chunk = true) :
    recvLoop [chunk] [] = some chunk := by
  simp [recvLoop, endRegSearch_nil, h]

theorem connSend_first_ok (fuel : Nat) (rest : List Attempt) (args : List Str)
    (tryCount : Int) (parse : Bool) (sent : List Str) (body : Str) :
    connSend (fuel + 1) (⟨true, fun _ => Except.ok [body ++ sentinelTail]⟩ :: rest)
        args tryCount parse sent =
      some ⟨if parse then PyRes.dict (connParse (pyStrip body)) else PyRes.str (pyStrip body),
        sent ++ [(args.foldl (· ++ ·) []) ++ ['\n']], rest⟩ := by
  have hne : (body ++ sentinelTail).isEmpty = false := by
    cases body <;> simp [sentinelTail]
  simp only [connSend, Bool.not_true, Bool.false_eq_true, if_false,
    recvLoop_single _ (endRegSearch_sentinel body), hne,
    endRegStrip_sentinel]

/-!
Claims
-/

/-- Claim C5: for every transport reply consisting of a body (possibly
empty) followed by a final line equal to the sentinel `END` (serialized as
`body ++ "\nEND\n"`), `Connector.send` accumulates input until the sentinel
pattern matches and returns the body with the sentinel and surrounding
whitespace stripped; the command line written to the socket is the
concatenation of the argument parts plus a newline. -/
theorem c5_send_strips_sentinel (body : Str) (args : List Str) :
    connSend 2 [⟨true, fun _ => Except.ok [body ++ sentinelTail]⟩] args 1 false [] =
      some ⟨PyRes.str (pyStrip body), [(args.foldl (· ++ ·) []) ++ ['\n']], []⟩ := by
  have h := connSend_first_ok 1 [] args 1 false [] body
  simpa using h

/-- Claim C8: `ready()` issues the `var.list` command via the Connector and
returns `true` iff the reply is non-empty; in particular, on a transport
where `send` yields no data (connection refused, total failure), `ready()`
returns `false`. -/
theorem c8_ready_nonempty_reply :
    streamerReady 2 [⟨false, fun _ => Except.ok []⟩] = some (false, []) ∧
    ∀ body : Str,
      streamerReady 2 [⟨true, fun _ => Except.ok [body ++ sentinelTail]⟩] =
        some (decide (pyStrip body ≠ []), [("var.list".toList) ++ ['\n']]) := by
  refine ⟨rfl, fun body => ?_⟩
  unfold streamerReady
  rw [connSend_first_ok 1 [] [("var.list".toList)] 1 false [] body]
  simp

/-- Claim C1 (code bug): with `try_count=1`, `send` does not implement the
claimed retry budget.  First conjunct: over a transport whose `connect`
succeeds but whose I/O always fails, `send` never returns at all — no fuel
bound and no schedule length make the recursion finish, because the
positional `self.send(data, try_count - 1)` resets `try_count` to its
default on every retry.  Second conjunct: when the transport fails once and
then succeeds, `send` returns the transport's reply to the mangled command
`"0\n"` (the partial buffer concatenated with `try_count - 1`), not to the
originally given `var.list` command. -/
theorem c1_retry_budget_broken :
    (∀ (fuel n : Nat) (args sent : List Str),
        connSend fuel (List.replicate n ⟨true, fun _ => Except.error []⟩) args 1 false sent
          = none) ∧
    connSend 3 [⟨true, fun _ => Except.error []⟩,
        ⟨true, fun cmd => Except.ok [("got:".toList) ++ cmd ++ sentinelTail]⟩]
      [("var.list".toList)] 1 false [] =
      some ⟨PyRes.str ("got:0".toList), [("var.list\n".toList), ("0\n".toList)], []⟩ := by
  constructor
  · intro fuel
    induction fuel with
    | zero => intro n args sent; rfl
    | succ f ih =>
      intro n args sent
      cases n with
      | zero => rfl
      | succ m =>
        rw [List.replicate_succ]
        simp only [connSend, Bool.not_true, Bool.false_eq_true, if_false]
        exact ih m _ _
  · rfl

/-- Claim C3 (code bug): constructing a `Controller` for station `radio1`
with one active program `jazz` that declares a stream does not yield the
claimed source set: `Master(self)` raises `TypeError` because the inherited
`BaseSource.__init__` requires `id` and `name`.  The id derivations the
claim describes do hold for the dealer and the stream source. -/
theorem c3_controller_init_raises :
    controllerInit ("radio1".toList) [⟨("jazz".toList), true, true⟩]
        = Except.error InitErr.typeErr ∧
    sourceId ("radio1".toList) none true = ("radio1_dealer".toList) ∧
    sourceId ("radio1".toList) (some ⟨("jazz".toList), true, true⟩) false
        = ("radio1_stream_jazz".toList) := by
  exact ⟨rfl, by decide, by decide⟩

/-- Claim C9: on a `Master` or dealer source with previously cached
metadata, `update()` with no metadata argument over an engine RPC that
fails (connection refused) or returns an empty reply replaces the cached
metadata with the empty mapping — stale metadata is never preserved. -/
theorem c9_failed_fetch_clears_metadata (cached : Option (List (Str × Str))) :
    sourceUpdateNoMeta 2 [⟨false, fun _ => Except.ok []⟩] false
        ("radio1_dealer".toList) cached = some (.ret none (some [])) ∧
    sourceUpdateNoMeta 2 [⟨true, fun _ => Except.ok [sentinelTail]⟩] false
        ("radio1_dealer".toList) cached = some (.ret none (some [])) ∧
    masterUpdateNoMeta 2 [⟨false, fun _ => Except.ok []⟩, ⟨false, fun _ => Except.ok []⟩]
        ("radio1".toList) cached = some (.ret none (some [])) := by
  exact ⟨rfl, rfl, rfl⟩

/-- Claim C10: in the reachable state where `request.on_air` returns the
non-empty request id `r1`, `request.metadata` parses to a non-empty mapping,
no source of the station has a matching `rid`, and `current_source` was
never set, `Streamer.fetch` dereferences the `None` `current_source`
(`self.current_source.metadata = data`) and aborts with `AttributeError`
instead of degrading to no data. -/
theorem c10_fetch_none_dereference :
    streamerFetch 5
        [⟨true, fun _ => Except.ok [sentinelTail]⟩,
         ⟨true, fun _ => Except.ok [("r1".toList) ++ sentinelTail]⟩,
         ⟨true, fun _ => Except.ok [("a=\"x\"".toList) ++ sentinelTail]⟩]
        [⟨("jazz".toList), none, none, none⟩] none none = some FetchOut.attrErr := by
  rfl

/-- Claim C4 is false as stated: a dealer source (`program is None`) whose
metadata reply carries a `source` field that does not start with the
dealer's id does not get the mismatch signal `-1` — the guard
`hasattr(self, 'program') and self.program` is false, so the mismatched
metadata replaces the cache wholesale and the call returns `None`. -/
theorem c4_counterexample :
    baseUpdate false ("radio1_dealer".toList)
        (some [(("k".toList), ("old".toList))])
        [(("source".toList), ("other_source".toList))] =
      (none, some [(("source".toList), ("other_source".toList))]) ∧
    (none : Option Int) ≠ some (-1) := by decide

/-- Claim C4 amended: the identity-mismatch rejection applies exactly to
stream sources (those with a `program`); for them a `source` field that does
not start with the source's id yields `-1` and leaves the cached metadata
unchanged.  Master and dealer sources, and any source whose `source` field
matches, accept the given mapping wholesale (return `None`). -/
theorem c4_update_mismatch_stream_only (hasProgram : Bool) (id : Str)
    (cached : Option (List (Str × Str))) (md : List (Str × Str)) :
    (hasProgram = true →
      id.isPrefixOf ((dictGet md ("source".toList)).getD []) = false →
      baseUpdate hasProgram id cached md = (some (-1), cached)) ∧
    (hasProgram = false ∨ id.isPrefixOf ((dictGet md ("source".toList)).getD []) = true →
      baseUpdate hasProgram id cached md = (none, some md)) := by
  constructor
  · intro hp hpre
    subst hp
    have hpre2 : ¬ id <+: (dictGet md ("source".toList)).getD [] := by
      rw [← List.isPrefixOf_iff_prefix, hpre]
      exact Bool.false_ne_true
    unfold baseUpdate
    simp [hpre2]
    exact hpre2
  · intro h
    rcases h with h | h
    · subst h
      unfold baseUpdate
      simp
    · unfold baseUpdate
      simp only [ List.isPrefixOf_iff_prefix] at h
      simp [h]
      exact fun _ => h

/-- Witness for the amended C4 at concrete inputs: a stream source rejects a
mismatched update with `-1` and keeps its cache; a dealer accepts the same
mapping wholesale. -/
theorem c4_update_mismatch_stream_only_witness :
    baseUpdate true ("radio1_stream_jazz".toList)
        (some [(("k".toList), ("old".toList))])
        [(("source".toList), ("other_source".toList))] =
      (some (-1), some [(("k".toList), ("old".toList))]) ∧
    baseUpdate false ("radio1_dealer".toList)
        (some [(("k".toList), ("old".toList))])
        [(("source".toList), ("other_source".toList))] =
      (none, some [(("source".toList), ("other_source".toList))]) := by
  constructor
  · exact (c4_update_mismatch_stream_only true ("radio1_stream_jazz".toList)
      (some [(("k".toList), ("old".toList))])
      [(("source".toList), ("other_source".toList))]).1 rfl (by decide)
  · exact (c4_update_mismatch_stream_only false ("radio1_dealer".toList)
      (some [(("k".toList), ("old".toList))])
      [(("source".toList), ("other_source".toList))]).2 (Or.inl rfl)

/-- Claim C2 is false as stated: assigning a playlist whose sorted form
equals the Source's current playlist performs no write at all.  Starting
from a fresh source (empty playlist, no writes) and assigning the empty
list twice leaves the write log empty — not the "exactly one write"
(with a read-back) the claim requires for every assigned list. -/
theorem c2_counterexample :
    playlistSet (playlistSet ⟨[], []⟩ []) [] = (⟨[], []⟩ : PySource) ∧
    (playlistSet (playlistSet ⟨[], []⟩ []) []).writes.length = 0 := by decide

/-- Claim C6 is false as stated: the value regex does not recover values
with embedded escaped quotes.  For the single well-formed line
`a="x\"y"` the parse yields the truncated value `x\` (the repeated
`[^"]` branch consumes the backslash and the group stops at the quote),
not `x\"y`. -/
theorem c6_counterexample :
    connParse (("a=\"x\\\"y\"").toList) = [(("a".toList), ("x\\".toList))] ∧
    ("x\\".toList) ≠ ("x\\\"y".toList) := by decide

/-- Claim C7 is false as stated: `Controller.write`'s normalization is not
"collapse backslash continuations, then collapse runs of 3+ blank lines".
On the rendered text `a\nb` — no continuation, no blank run — the claimed
normalization is the identity, but the code deletes the newline and writes
`ab`: it removes every line break that does not come from a backslash
continuation. -/
theorem c7_counterexample :
    configNormalize ("a\nb".toList) = ("ab".toList) ∧
    specNormalizeC7 ("a\nb".toList) = ("a\nb".toList) ∧
    ("ab".toList) ≠ ("a\nb".toList) := by decide

theorem splitNl_nlfree {a : Str} (h : '\n' ∉ a) : splitNl a = [a] := by
  induction a with
  | nil => rfl
  | cons c rest ih =>
    have hc : ¬ c = '\n' := by
      rintro rfl
      exact h (List.mem_cons_self _ _)
    have hrest : '\n' ∉ rest := fun hm => h (List.mem_cons_of_mem _ hm)
    simp [splitNl, hc, ih hrest]

theorem splitNl_append_nl {a : Str} (t : Str) (h : '\n' ∉ a) :
    splitNl (a ++ '\n' :: t) = a :: splitNl t := by
  induction a with
  | nil => simp [splitNl]
  | cons c rest ih =>
    have hc : ¬ c = '\n' := by
      rintro rfl
      exact h (List.mem_cons_self _ _)
    have hrest : '\n' ∉ rest := fun hm => h (List.mem_cons_of_mem _ hm)
    simp [splitNl, hc, ih hrest]

theorem joinNl_cons_cons (a b : Str) (t : List Str) :
    joinNl (a :: b :: t) = a ++ '\n' :: joinNl (b :: t) := by
  simp [joinNl, List.intercalate, List.intersperse_cons_cons]

theorem splitNl_joinNl {xs : List Str} (hne : xs ≠ []) (h : ∀ p ∈ xs, '\n' ∉ p) :
    splitNl (joinNl xs) = xs := by
  induction xs with
  | nil => exact absurd rfl hne
  | cons a rest ih =>
    cases rest with
    | nil =>
      have : joinNl [a] = a := by simp [joinNl, List.intercalate]
      rw [this, splitNl_nlfree (h a (List.mem_cons_self _ _))]
    | cons b t =>
      rw [joinNl_cons_cons, splitNl_append_nl _ (h a (List.mem_cons_self _ _)),
        ih (by simp) (fun p hp => h p (List.mem_cons_of_mem _ hp))]

theorem fromFile_joinNl {xs : List Str} (hx : xs ≠ [[]]) (h : ∀ p ∈ xs, '\n' ∉ p) :
    fromFileParse (joinNl xs) = xs := by
  cases xs with
  | nil => rfl
  | cons a rest =>
    have hne : joinNl (a :: rest) ≠ [] := by
      cases rest with
      | nil =>
        have ha : a ≠ [] := by
          intro hnil
          exact hx (by rw [hnil])
        simpa [joinNl, List.intercalate] using ha
      | cons b t => simp [joinNl_cons_cons]
    unfold fromFileParse
    rw [if_neg (by simp [hne]), splitNl_joinNl (by simp) h]

theorem sortPaths_sorted (v : List Str) : List.Sorted (· ≤ ·) (sortPaths v) :=
  List.sorted_insertionSort _ v

theorem sortPaths_idem (v : List Str) : sortPaths (sortPaths v) = sortPaths v :=
  List.Sorted.insertionSort_eq (sortPaths_sorted v)

theorem mem_sortPaths {p : Str} {v : List Str} (hp : p ∈ sortPaths v) : p ∈ v :=
  (List.perm_insertionSort (· ≤ ·) v).mem_iff.mp hp

/-- Claim C2 amended: for a list of newline-free paths whose sorted form
differs from the Source's current playlist and is not the single empty
string, the setter stores the sorted input, performs exactly one file write
(of the newline-joined sorted paths), reading the written content back via
`from_file` yields exactly the sorted paths in order, and assigning the
same already-sorted sequence a second time performs no further write. -/
theorem c2_playlist_roundtrip (st : PySource) (v : List Str)
    (hchanged : sortPaths v ≠ st.playlist)
    (hnontrivial : sortPaths v ≠ [[]])
    (hnl : ∀ p ∈ v, '\n' ∉ p) :
    (playlistSet st v).playlist = sortPaths v ∧
    (playlistSet st v).writes = st.writes ++ [joinNl (sortPaths v)] ∧
    fromFileParse (joinNl (sortPaths v)) = sortPaths v ∧
    playlistSet (playlistSet st v) (sortPaths v) = playlistSet st v := by
  have hnl2 : ∀ p ∈ sortPaths v, '\n' ∉ p := fun p hp => hnl p (mem_sortPaths hp)
  have hset : playlistSet st v =
      { playlist := sortPaths v, writes := st.writes ++ [joinNl (sortPaths v)] } := by
    unfold playlistSet
    simp [hchanged]
  refine ⟨by rw [hset], by rw [hset], fromFile_joinNl hnontrivial hnl2, ?_⟩
  conv_lhs => rw [hset]
  unfold playlistSet
  simp [sortPaths_idem]
  rw [if_neg hchanged]

/-- Witness for the amended C2 at the spec's example: assigning
`["b.mp3", "a.mp3"]` to a fresh source stores and writes `a.mp3\nb.mp3`,
reading the file back yields the sorted pair, and re-assigning the sorted
pair writes nothing further. -/
theorem c2_playlist_roundtrip_witness :
    (playlistSet ⟨[], []⟩ [("b.mp3".toList), ("a.mp3".toList)]).playlist
        = sortPaths [("b.mp3".toList), ("a.mp3".toList)] ∧
    (playlistSet ⟨[], []⟩ [("b.mp3".toList), ("a.mp3".toList)]).writes
        = [] ++ [joinNl (sortPaths [("b.mp3".toList), ("a.mp3".toList)])] ∧
    fromFileParse (joinNl (sortPaths [("b.mp3".toList), ("a.mp3".toList)]))
        = sortPaths [("b.mp3".toList), ("a.mp3".toList)] ∧
    playlistSet (playlistSet ⟨[], []⟩ [("b.mp3".toList), ("a.mp3".toList)])
        (sortPaths [("b.mp3".toList), ("a.mp3".toList)])
        = playlistSet ⟨[], []⟩ [("b.mp3".toList), ("a.mp3".toList)] :=
  c2_playlist_roundtrip ⟨[], []⟩ [("b.mp3".toList), ("a.mp3".toList)]
    (by decide) (by decide) (by decide)

theorem span_append_stop (p : Char → Bool) (a : Str) (x : Char) (t : Str)
    (ha : ∀ c ∈ a, p c = true) (hx : p x = false) :
    (a ++ x :: t).span p = (a, x :: t) := by
  rw [List.span_eq_take_drop, List.takeWhile_append_of_pos ha,
    List.dropWhile_append_of_pos ha, List.takeWhile_cons_of_neg (by simp [hx]),
    List.dropWhile_cons_of_neg (by simp [hx])]
  simp

theorem tryMatch_wf {k v : Str} (hk : k ≠ []) (hkeq : '=' ∉ k) (hv : v ≠ [])
    (hvq : '"' ∉ v) :
    tryMatch (k ++ '=' :: '"' :: (v ++ ['"'])) = some (k, v) := by
  have hka : ∀ c ∈ k, (c != '=') = true := fun c hc => by
    simp only [bne_iff_ne, ne_eq]
    rintro rfl
    exact hkeq hc
  have hva : ∀ c ∈ v, (c != '"') = true := fun c hc => by
    simp only [bne_iff_ne, ne_eq]
    rintro rfl
    exact hvq hc
  have h1 : (k ++ '=' :: '"' :: (v ++ ['"'])).span (fun c => c != '=') =
      (k, '=' :: '"' :: (v ++ ['"'])) := span_append_stop _ k '=' _ hka (by decide)
  have h2 : (v ++ '"' :: []).span (fun c => c != '"') = (v, '"' :: []) :=
    span_append_stop _ v '"' [] hva (by decide)
  cases k with
  | nil => exact absurd rfl hk
  | cons k0 ks =>
    cases v with
    | nil => exact absurd rfl hv
    | cons v0 vs =>
      unfold tryMatch
      rw [h1]
      simp only []
      rw [h2]

theorem lineSearch_wf {k v : Str} (hk : k ≠ []) (hkeq : '=' ∉ k) (hv : v ≠ [])
    (hvq : '"' ∉ v) :
    lineSearch (renderPair (k, v)) = some (k, v) := by
  have ht := tryMatch_wf hk hkeq hv hvq
  unfold renderPair
  cases k with
  | nil => exact absurd rfl hk
  | cons k0 ks =>
    simp only [List.cons_append] at ht ⊢
    simp only [lineSearch, ht]

theorem lineSearch_noeq {j : Str} (h : '=' ∉ j) : lineSearch j = none := by
  induction j with
  | nil => rfl
  | cons c rest ih =>
    have hc : (c != '=') = true := by
      simp only [bne_iff_ne, ne_eq]
      rintro rfl
      exact h (List.mem_cons_self _ _)
    have hdw : List.dropWhile (fun c => c != '=') (c :: rest) = [] := by
      rw [List.dropWhile_eq_nil_iff]
      intro x hx
      simp only [bne_iff_ne, ne_eq]
      rintro rfl
      exact h hx
    have htm : tryMatch (c :: rest) = none := by
      unfold tryMatch
      rw [List.span_eq_take_drop, hdw,
        @List.takeWhile_cons_of_pos Char (fun c => c != '=') c rest hc]
    simp only [lineSearch, htm]
    exact ih (fun hm => h (List.mem_cons_of_mem _ hm))

theorem dictSet_new {d : List (Str × Str)} {k v : Str} (h : ∀ q ∈ d, q.1 ≠ k) :
    dictSet d k v = d ++ [(k, v)] := by
  have hany : (d.any fun p => p.1 == k) = false := by
    rw [List.any_eq_false]
    intro p hp
    simp [h p hp]
  unfold dictSet
  rw [hany]
  simp

theorem pairsOf_cons_inl (p : Str × Str) (rest : List ((Str × Str) ⊕ Str)) :
    pairsOf (.inl p :: rest) = p :: pairsOf rest := by
  simp [pairsOf]

theorem pairsOf_cons_inr (j : Str) (rest : List ((Str × Str) ⊕ Str)) :
    pairsOf (.inr j :: rest) = pairsOf rest := by
  simp [pairsOf]

theorem renderLine_nlfree {l : (Str × Str) ⊕ Str} (h : wfLineB l = true) :
    '\n' ∉ renderLine l := by
  cases l with
  | inl p =>
    obtain ⟨k, v⟩ := p
    have h3 : '\n' ∉ k := by
      simp [wfLineB] at h
      tauto
    have h6 : '\n' ∉ v := by
      simp [wfLineB] at h
      tauto
    simp only [renderLine, renderPair]
    simp [List.mem_append, List.mem_cons, h3, h6]
  | inr j =>
    have hj : '\n' ∉ j := by
      simp [wfLineB] at h
      tauto
    simpa [renderLine] using hj

theorem parse_fold (lines : List ((Str × Str) ⊕ Str)) :
    ∀ d : List (Str × Str),
      (∀ l ∈ lines, wfLineB l = true) →
      (∀ q ∈ pairsOf lines, ∀ p ∈ d, p.1 ≠ q.1) →
      ((pairsOf lines).map Prod.fst).Nodup →
      (lines.map renderLine).foldl parseLineStep d = d ++ pairsOf lines := by
  induction lines with
  | nil =>
    intro d _ _ _
    simp [pairsOf]
  | cons l rest ih =>
    intro d hwf hdisj hnodup
    cases l with
    | inl p =>
      obtain ⟨k, v⟩ := p
      have hw := hwf _ (List.mem_cons_self _ _)
      simp only [wfLineB, Bool.and_eq_true] at hw
      obtain ⟨⟨⟨⟨⟨h1, h2⟩, -⟩, h4⟩, h5⟩, -⟩ := hw
      simp only [Bool.not_eq_true', List.isEmpty_eq_false] at h1 h4
      simp only [Bool.not_eq_true'] at h2 h5
      have h2' : '=' ∉ k := by simpa using h2
      have h5' : '"' ∉ v := by simpa using h5
      rw [List.map_cons, List.foldl_cons]
      have hkmem : (k, v) ∈ pairsOf (.inl (k, v) :: rest) := by
        rw [pairsOf_cons_inl]
        exact List.mem_cons_self _ _
      have hstep : parseLineStep d (renderLine (.inl (k, v))) = d ++ [(k, v)] := by
        unfold parseLineStep renderLine
        rw [lineSearch_wf h1 h2' h4 h5']
        exact dictSet_new (fun q hq => hdisj _ hkmem q hq)
      rw [hstep]
      rw [pairsOf_cons_inl] at hnodup ⊢
      rw [List.map_cons, List.nodup_cons] at hnodup
      have hdisj2 : ∀ q ∈ pairsOf rest, ∀ p2 ∈ d ++ [(k, v)], p2.1 ≠ q.1 := by
        intro q hq p2 hp2
        rcases List.mem_append.mp hp2 with hp2 | hp2
        · exact hdisj q (by rw [pairsOf_cons_inl]; exact List.mem_cons_of_mem _ hq) p2 hp2
        · rw [List.mem_singleton] at hp2
          subst hp2
          intro hkq
          refine hnodup.1 ?_
          rw [hkq]
          exact List.mem_map_of_mem Prod.fst hq
      rw [ih (d ++ [(k, v)]) (fun x hx => hwf x (List.mem_cons_of_mem _ hx)) hdisj2 hnodup.2]
      simp
    | inr j =>
      have hw := hwf _ (List.mem_cons_self _ _)
      simp only [wfLineB, Bool.and_eq_true] at hw
      have hj : '=' ∉ j := by
        have := hw.1
        simp only [Bool.not_eq_true'] at this
        simpa using this
      rw [List.map_cons, List.foldl_cons]
      have hstep : parseLineStep d (renderLine (.inr j)) = d := by
        unfold parseLineStep renderLine
        rw [lineSearch_noeq hj]
      rw [hstep, pairsOf_cons_inr]
      rw [pairsOf_cons_inr] at hnodup
      exact ih d (fun x hx => hwf x (List.mem_cons_of_mem _ hx))
        (fun q hq => hdisj q (by rw [pairsOf_cons_inr]; exact hq)) hnodup

/-- Claim C6 amended: `parse` recovers, for each line, the first well-formed
`key="value"` pair, best-effort.  For every non-empty reply whose lines are
each either an unambiguous pair line `key="value"` (nonempty key without
`'='`, nonempty value without quotes) or an inert line without `'='`, the
result is exactly those pairs in line order, with non-matching lines skipped
silently (values containing embedded escaped quotes are truncated at the
backslash, only the first pair of a line is extracted, and for duplicate
keys the last line wins, so the mapping is order-independent only for
distinct keys — here assumed distinct). -/
theorem c6_parse_wellformed (lines : List ((Str × Str) ⊕ Str))
    (hne : lines ≠ [])
    (hwf : lines.all wfLineB = true)
    (hkeys : ((pairsOf lines).map Prod.fst).Nodup) :
    connParse (joinNl (lines.map renderLine)) = pairsOf lines := by
  have hwf2 : ∀ l ∈ lines, wfLineB l = true := List.all_eq_true.mp hwf
  unfold connParse
  rw [splitNl_joinNl (by simpa using hne)
    (fun p hp => by
      obtain ⟨l, hl, rfl⟩ := List.mem_map.mp hp
      exact renderLine_nlfree (hwf2 l hl))]
  simpa using parse_fold lines [] hwf2 (by simp) hkeys

/-- Witness for the amended C6: the reply `a="x"`, an inert line, then
`b="y"` parses to exactly the two pairs in order. -/
theorem c6_parse_wellformed_witness :
    connParse (joinNl ([Sum.inl (("a".toList), ("x".toList)), Sum.inr ("junk".toList),
        Sum.inl (("b".toList), ("y".toList))].map renderLine))
      = pairsOf [Sum.inl (("a".toList), ("x".toList)), Sum.inr ("junk".toList),
        Sum.inl (("b".toList), ("y".toList))] :=
  c6_parse_wellformed _ (by decide) (by decide) (by decide)

theorem subContAux_cons_ne {c : Char} (hc : c ≠ '\\') (pend rest : Str) :
    subContAux pend (c :: rest) =
      if isWs c then subContAux (pend ++ [c]) rest
      else pend ++ c :: subContAux [] rest := by
  rw [subContAux.eq_def]
  split <;> simp_all

theorem subContAux_nobs {p : Str} (h : '\\' ∉ p) :
    ∀ pend, subContAux pend p = pend ++ p := by
  induction p with
  | nil => intro pend; simp [subContAux]
  | cons c rest ih =>
    intro pend
    have hc : c ≠ '\\' := by
      rintro rfl
      exact h (List.mem_cons_self _ _)
    have hrest : '\\' ∉ rest := fun hm => h (List.mem_cons_of_mem _ hm)
    rw [subContAux_cons_ne hc]
    by_cases hw : isWs c
    · rw [if_pos hw, ih hrest]
      simp
    · rw [if_neg hw, ih hrest]
      simp

theorem subContAux_continuation {p : Str} (hb : '\\' ∉ p) (hne : p ≠ [])
    (hlast : ∀ c, p.getLast? = some c → isWs c = false) :
    ∀ pend s, subContAux pend (p ++ '\\' :: '\n' :: s) =
      pend ++ p ++ marker ++ subContAux [] s := by
  induction p with
  | nil => exact absurd rfl hne
  | cons c rest ih =>
    intro pend s
    have hc : c ≠ '\\' := by
      rintro rfl
      exact hb (List.mem_cons_self _ _)
    have hbrest : '\\' ∉ rest := fun hm => hb (List.mem_cons_of_mem _ hm)
    rw [List.cons_append, subContAux_cons_ne hc]
    cases rest with
    | nil =>
      have hcw : isWs c = false := hlast c rfl
      rw [if_neg (by simp [hcw])]
      simp [subContAux]
    | cons b t =>
      have hlast2 : ∀ x, (b :: t).getLast? = some x → isWs x = false := by
        intro x hx
        apply hlast x
        rw [List.getLast?_cons_cons]
        exact hx
      have ihr := ih hbrest (by simp) hlast2
      by_cases hw : isWs c
      · rw [if_pos hw, ihr]
        simp
      · rw [if_neg hw, ihr]
        simp

theorem subMarker_cons_ne {c : Char} {rest : Str}
    (h : ∀ r, ¬ rest = '\\' :: 'n' :: '#' :: r) :
    subMarker (c :: rest) = c :: subMarker rest := by
  rw [subMarker.eq_def]
  split <;> simp_all

theorem subMarker_nobs {s : Str} (h : '\\' ∉ s) : subMarker s = s := by
  induction s with
  | nil => rfl
  | cons c rest ih =>
    have hrest : '\\' ∉ rest := fun hm => h (List.mem_cons_of_mem _ hm)
    have hside : ∀ r, ¬ rest = '\\' :: 'n' :: '#' :: r := by
      intro r hr
      exact hrest (by rw [hr]; exact List.mem_cons_self _ _)
    rw [subMarker_cons_ne hside, ih hrest]

theorem subMarker_marker {a : Str} (h : '\\' ∉ a) (b : Str) :
    subMarker (a ++ '#' :: '\\' :: 'n' :: '#' :: b) = a ++ '\n' :: subMarker b := by
  induction a with
  | nil => rfl
  | cons c rest ih =>
    have hrest : '\\' ∉ rest := fun hm => h (List.mem_cons_of_mem _ hm)
    have hside : ∀ r, ¬ rest ++ '#' :: '\\' :: 'n' :: '#' :: b = '\\' :: 'n' :: '#' :: r := by
      intro r hr
      cases rest with
      | nil => simp at hr
      | cons x t =>
        have hx : x = '\\' := by
          have := congrArg (fun l => l.head?) hr
          simpa using this
        exact hrest (by rw [hx]; exact List.mem_cons_self _ _)
    rw [List.cons_append, subMarker_cons_ne hside, ih hrest]
    simp

theorem removeNl_append (x y : Str) : removeNl (x ++ y) = removeNl x ++ removeNl y :=
  List.filter_append x y

theorem removeNl_nobs {p : Str} (h : '\\' ∉ p) : '\\' ∉ removeNl p :=
  fun hm => h (List.mem_of_mem_filter hm)

theorem intercalate_cons_cons (sep : Str) (a b : Str) (t : List Str) :
    List.intercalate sep (a :: b :: t) = a ++ sep ++ List.intercalate sep (b :: t) := by
  simp [List.intercalate, List.intersperse_cons_cons]

/-- Claim C7 amended: `Controller.write`\'s normalization does not collapse
blank lines at all (the 3-or-more-newlines-to-2 regexp lives in
`Streamer.push`), and it does not join backslash-continued lines — it does
the opposite: every newline of the rendered text is deleted, except that
each whitespace-run + backslash + newline continuation is replaced by a
single newline.  For segments without backslashes that do not end in
whitespace, the written text is the segments with their internal newlines
removed, rejoined with one newline per continuation.  The file is then
overwritten in place with a plain `open`/`write`, not atomically. -/
theorem c7_normalize_inverts_continuations (parts : List Str)
    (h : parts.all wfPartB = true) :
    configNormalize (List.intercalate ['\\', '\n'] parts)
      = List.intercalate ['\n'] (parts.map removeNl) := by
  induction parts with
  | nil => rfl
  | cons a rest ih =>
    have ha := (List.all_eq_true.mp h) a (List.mem_cons_self _ _)
    simp only [wfPartB, Bool.and_eq_true] at ha
    have hbs : '\\' ∉ a := by
      have := ha.1
      simp only [Bool.not_eq_true'] at this
      simpa using this
    have hane : a ≠ [] := by
      intro hnil
      rw [hnil] at ha
      simp at ha
    have halast : ∀ c, a.getLast? = some c → isWs c = false := by
      intro c hc
      have := ha.2
      rw [hc] at this
      simpa using this
    cases rest with
    | nil =>
      unfold configNormalize subCont
      rw [show List.intercalate ['\\', '\n'] [a] = a by simp [List.intercalate],
        subContAux_nobs hbs, List.nil_append, subMarker_nobs (removeNl_nobs hbs)]
      simp [List.intercalate]
    | cons b t =>
      have hrest : (b :: t).all wfPartB = true := by
        rw [List.all_eq_true] at h ⊢
        exact fun x hx => h x (List.mem_cons_of_mem _ hx)
      have h1 : List.intercalate ['\\', '\n'] (a :: b :: t)
          = a ++ '\\' :: '\n' :: List.intercalate ['\\', '\n'] (b :: t) := by
        rw [intercalate_cons_cons]
        simp
      unfold configNormalize subCont
      rw [h1, subContAux_continuation hbs hane halast [] _, List.nil_append,
        List.append_assoc, removeNl_append, removeNl_append]
      have h2 : removeNl a ++ (removeNl marker
            ++ removeNl (subContAux [] (List.intercalate ['\\', '\n'] (b :: t))))
          = removeNl a ++ '#' :: '\\' :: 'n' :: '#'
            :: removeNl (subContAux [] (List.intercalate ['\\', '\n'] (b :: t))) := rfl
      rw [h2, subMarker_marker (removeNl_nobs hbs)]
      have ih2 := ih hrest
      unfold configNormalize subCont at ih2
      rw [ih2]
      have h3 : List.map removeNl (a :: b :: t)
          = removeNl a :: removeNl b :: List.map removeNl t := rfl
      rw [h3, intercalate_cons_cons]
      simp

/-- Witness for the amended C7: two backslash-free segments joined by a
continuation normalize to the segments joined by a plain newline. -/
theorem c7_normalize_inverts_continuations_witness :
    configNormalize (List.intercalate ['\\', '\n'] [("x".toList), ("y".toList)])
      = List.intercalate ['\n'] ([("x".toList), ("y".toList)].map removeNl) :=
  c7_normalize_inverts_continuations [("x".toList), ("y".toList)] (by decide)
